import Mathlib

/-!
Verification of `services/comparison.py` (codecov-api).

This file gives a shallow embedding of the comparison engine:
the diff traverser `FileComparisonTraverseManager`, the visitors
(`CreateChangeSummaryVisitor`, `CreateLineComparisonVisitor`), the
`LineComparison` / `Segment` / `FileComparison` response objects, the
`Comparison.upload_commits` query and the `PullRequestComparison`
cache fallback, together with theorems about the claims of the spec.

Machine conventions:
* Python ints are `Int`; list indices follow Python semantics (negative
  indices count from the end) via `pyGet`.
* A raised `IndexError` that is not caught in the source is modelled as
  `none` in an `Option`-valued result.
* Coverage values stored in report-line arrays live in the external
  `shared` library; only their classification (`line_type`: hit, miss or
  partial) is observable by this code, so a report line is embedded as
  its coverage class directly.
-/

/-- Coverage classification, mirroring `shared.utils.merge.LineType`
(restricted to the three classes named by `coverage_type_map` in the
source: hit, miss, partial). `partialCov` is the `partial` class. -/
inductive LineType : Type where
  | hit : LineType
  | miss : LineType
  | partialCov : LineType
deriving DecidableEq, Repr

/-- Modelled from the spec: a report-line record of the external
`shared` library ("the coverage type ... found at index 0 of the
line-array").  Only the coverage class at index 0 is used by
`services/comparison.py`, so the record is embedded as that class. -/
structure RLine : Type where
  cov : LineType
deriving DecidableEq, Repr

/-- Modelled from the spec: `shared.reports.resources.ReportFile`, as
used by the source: `_lines` is the underlying array, holding `None`
(here `none`) at untracked lines. -/
structure RFile : Type where
  _lines : List (Option RLine)
deriving DecidableEq, Repr

/-- Python list indexing `xs[i]`: nonnegative indices from the front,
negative indices from the end, `none` for an `IndexError`. -/
def pyGet {α : Type} (xs : List α) (i : Int) : Option α :=
  if 0 ≤ i then xs.get? i.toNat
  else if 0 ≤ (xs.length : Int) + i then xs.get? ((xs.length : Int) + i).toNat
  else none

/-- Modelled from the spec: `ReportFile.eof` of the external `shared`
library, "end-line of the head_file we are traversing, plus 1"
(the traverser docstring): one past the last stored line. -/
def RFile.eof (f : RFile) : Int := (f._lines.length : Int) + 1

/-- One diff segment (hunk) of the provider comparison, with the four
header fields `[base_start, base_count, head_start, head_count]`
(ints; the source applies `int()` to them) and the diff line values. -/
structure DiffSegment : Type where
  base_start : Int
  base_count : Int
  head_start : Int
  head_count : Int
  lines : List String
deriving DecidableEq, Repr

/-- Python `n or 1` for an int `n`: `0` is falsy. -/
def orOne (n : Int) : Int := if n = 0 then 1 else n

/-- First character of a Python string, `none` when empty. -/
def firstChar (v : String) : Option Char := v.data.head?

/-- `_is_added`: `line_value and line_value[0] == "+"`.
The argument is `none` when `pop_line` returned Python `None`. -/
def _is_added (line_value : Option String) : Bool :=
  match line_value with
  | some v => firstChar v = some '+'
  | none => false

/-- `_is_removed`: `line_value and line_value[0] == "-"`. -/
def _is_removed (line_value : Option String) : Bool :=
  match line_value with
  | some v => firstChar v = some '-'
  | none => false

/-- The mutable state of `FileComparisonTraverseManager`. -/
structure TravState : Type where
  head_file_eof : Int
  base_file_eof : Int
  segments : List DiffSegment
  src : List String
  base_ln : Int
  head_ln : Int
deriving DecidableEq, Repr

/-- `FileComparisonTraverseManager.__init__`: cursors start at
`min(1, int(header[0]))` / `min(1, int(header[2]))` when segments are
present, else at 1. -/
def TravState.init (head_file_eof base_file_eof : Int)
    (segments : List DiffSegment) (src : List String) : TravState :=
  match segments with
  | [] => ⟨head_file_eof, base_file_eof, segments, src, 1, 1⟩
  | seg :: _ =>
    ⟨head_file_eof, base_file_eof, segments, src,
      min 1 seg.base_start, min 1 seg.head_start⟩

/-- `FileComparisonTraverseManager.traverse_finished`. -/
def traverse_finished (s : TravState) : Bool :=
  if !s.segments.isEmpty then false
  else if !s.src.isEmpty then decide ((s.src.length : Int) < s.head_ln)
  else decide (s.head_file_eof ≤ s.head_ln) && decide (s.base_file_eof ≤ s.base_ln)

/-- `FileComparisonTraverseManager.traversing_diff`. -/
def traversing_diff (s : TravState) : Bool :=
  match s.segments with
  | [] => false
  | segment :: _ =>
    let base_ln_within_offset :=
      decide (segment.base_start ≤ s.base_ln) &&
      decide (s.base_ln < segment.base_start + orOne segment.base_count)
    let head_ln_within_offset :=
      decide (segment.head_start ≤ s.head_ln) &&
      decide (s.head_ln < segment.head_start + orOne segment.head_count)
    base_ln_within_offset || head_ln_within_offset

/-- `FileComparisonTraverseManager.pop_line`.  The outer `Option` is
the exception channel: `none` models the `IndexError` of `pop(0)` on an
empty segment-line list or an out-of-range `src` access; `some none`
is the fall-through return of Python `None`. -/
def pop_line (s : TravState) : Option (Option String) :=
  if traversing_diff s then
    match s.segments with
    | segment :: _ => (segment.lines.head?).map some
    | [] => some none
  else if !s.src.isEmpty then (pyGet s.src (s.head_ln - 1)).map some
  else some none

/-- The arguments `.apply` passes to each visitor for one line:
base/head line number (None when the line is added/removed), the line
value, and the `traversing_diff()` flag.  The source evaluates
`traversing_diff()` after `pop_line`, but popping a line changes
neither the cursors nor the headers nor segment presence, so the flag
equals `traversing_diff` of the pre-pop state. -/
structure VisitRecord : Type where
  base : Option Int
  head : Option Int
  value : Option String
  is_diff : Bool
deriving DecidableEq, Repr

/-- Front segment with its first line popped (the mutation performed by
`pop_line` when traversing the diff). -/
def popAdjustSegments (s : TravState) : List DiffSegment :=
  if traversing_diff s then
    match s.segments with
    | segment :: rest => { segment with lines := segment.lines.tail } :: rest
    | [] => []
  else s.segments

/-- One iteration of the `while` loop in
`FileComparisonTraverseManager.apply`: pop a line, record the visitor
arguments, advance the cursors, drop the front segment once its lines
are exhausted.  `none` is an escaping `IndexError`. -/
def step (s : TravState) : Option (VisitRecord × TravState) :=
  match pop_line s with
  | none => none
  | some line_value =>
    let record : VisitRecord :=
      ⟨if _is_added line_value then none else some s.base_ln,
       if _is_removed line_value then none else some s.head_ln,
       line_value, traversing_diff s⟩
    let segments1 := popAdjustSegments s
    let base_ln' := if _is_added line_value then s.base_ln else s.base_ln + 1
    let head_ln' := if _is_removed line_value then s.head_ln else s.head_ln + 1
    let segments2 :=
      match segments1 with
      | segment :: rest => if segment.lines.isEmpty then rest else segments1
      | [] => []
    some (record,
      { s with segments := segments2, base_ln := base_ln', head_ln := head_ln' })

/-- Run at most `n` iterations of the `.apply` loop, stopping early
when `traverse_finished` holds, collecting the visitor arguments of
each executed iteration.  `none` is an escaping exception. -/
def runN : Nat → TravState → Option (List VisitRecord × TravState)
  | 0, s => some ([], s)
  | Nat.succ n, s =>
    if traverse_finished s then some ([], s)
    else
      match step s with
      | none => none
      | some (r, s') => (runN n s').map (fun p => (r :: p.1, p.2))

/-- The state after at most `n` loop iterations. -/
def applyN (n : Nat) (s : TravState) : Option TravState :=
  (runN n s).map (fun p => p.2)

/-- The `while` loop of `.apply` terminates from state `s` (without an
escaping exception): some finite number of iterations reaches a state
satisfying `traverse_finished`. -/
def terminatesFrom (s : TravState) : Prop :=
  ∃ n t, applyN n s = some t ∧ traverse_finished t = true

/-- `FileComparisonVisitor._get_line`: `None` if the file or the line
number is `None`; otherwise Python indexing `_lines[ln - 1]` with the
`IndexError` caught (`none`), and a falsy stored entry (an untracked
line) yielding `None` through the `if line:` check. -/
def _get_line (report_file : Option RFile) (ln : Option Int) : Option RLine :=
  match report_file, ln with
  | none, _ => none
  | _, none => none
  | some f, some n =>
    match pyGet f._lines (n - 1) with
    | none => none
    | some line => line

/-- The running total kept by `CreateChangeSummaryVisitor.summary`
(a `Counter` with the three buckets of `coverage_type_map`). -/
structure ChangeSummary : Type where
  hits : Int
  misses : Int
  partials : Int
deriving DecidableEq, Repr

/-- The all-zero summary (a fresh `Counter`). -/
def ChangeSummary.zero : ChangeSummary := ⟨0, 0, 0⟩

/-- `self.summary[self.coverage_type_map[t]] += d` for a coverage
class `t`. -/
def ChangeSummary.add (cs : ChangeSummary) (t : LineType) (d : Int) : ChangeSummary :=
  match t with
  | .hit => { cs with hits := cs.hits + d }
  | .miss => { cs with misses := cs.misses + d }
  | .partialCov => { cs with partials := cs.partials + d }

/-- `Counter.values()` of the summary (the three buckets). -/
def ChangeSummary.values (cs : ChangeSummary) : List Int :=
  [cs.hits, cs.misses, cs.partials]

/-- `CreateChangeSummaryVisitor._update_summary`: decrement the bucket
of the base line's coverage class, increment the bucket of the head
line's class. -/
def _update_summary (cs : ChangeSummary) (base_line head_line : RLine) : ChangeSummary :=
  (cs.add base_line.cov (-1)).add head_line.cov 1

/-- The guard `value and value[0] in ["+", "-"]` of
`CreateChangeSummaryVisitor.__call__`. -/
def valueIsPlusMinus (value : Option String) : Bool :=
  match value with
  | some v => firstChar v = some '+' || firstChar v = some '-'
  | none => false

/-- `CreateChangeSummaryVisitor.__call__` for one visited line. -/
def changeSummaryCall (base_file head_file : Option RFile) (cs : ChangeSummary)
    (base_ln head_ln : Option Int) (value : Option String) : ChangeSummary :=
  if valueIsPlusMinus value then cs
  else
    match _get_line base_file base_ln, _get_line head_file head_ln with
    | some base_line, some head_line =>
      if base_line.cov = head_line.cov then cs
      else _update_summary cs base_line head_line
    | _, _ => cs

/-- Fold `CreateChangeSummaryVisitor` over the visited lines of a
traversal. -/
def summaryFold (base_file head_file : Option RFile)
    (records : List VisitRecord) (cs : ChangeSummary) : ChangeSummary :=
  records.foldl (fun acc r => changeSummaryCall base_file head_file acc r.base r.head r.value) cs

/-- The `LineComparison` response object.  `value` is never `None`
here: `CreateLineComparisonVisitor` only appends when the traverser
supplied a line value. -/
structure LineComparison : Type where
  base_line : Option RLine
  head_line : Option RLine
  base_ln : Option Int
  head_ln : Option Int
  value : String
  is_diff : Bool
deriving DecidableEq, Repr

/-- `self.added = _is_added(value)` of `LineComparison.__init__`. -/
def LineComparison.added (lc : LineComparison) : Bool := _is_added (some lc.value)

/-- `self.removed = _is_removed(value)` of `LineComparison.__init__`. -/
def LineComparison.removed (lc : LineComparison) : Bool := _is_removed (some lc.value)

/-- `LineComparison.number["base"]` / `["head"]`. -/
def LineComparison.numberBase (lc : LineComparison) : Option Int :=
  if lc.added then none else lc.base_ln

/-- `LineComparison.number["head"]`. -/
def LineComparison.numberHead (lc : LineComparison) : Option Int :=
  if lc.removed then none else lc.head_ln

/-- `LineComparison.coverage["base"]`: `None if self.added or not
self.base_line else line_type(self.base_line[0])`. -/
def LineComparison.coverageBase (lc : LineComparison) : Option LineType :=
  if lc.added then none else lc.base_line.map RLine.cov

/-- `LineComparison.coverage["head"]`. -/
def LineComparison.coverageHead (lc : LineComparison) : Option LineType :=
  if lc.removed then none else lc.head_line.map RLine.cov

/-- `CreateLineComparisonVisitor.__call__` for one visited line: skip
when the value is `None`, else look up both report lines and append a
`LineComparison`. -/
def lineComparisonCall (base_file head_file : Option RFile)
    (acc : List LineComparison)
    (base_ln head_ln : Option Int) (value : Option String) (is_diff : Bool) :
    List LineComparison :=
  match value with
  | none => acc
  | some v =>
    acc ++ [⟨_get_line base_file base_ln, _get_line head_file head_ln,
            base_ln, head_ln, v, is_diff⟩]

/-- Fold `CreateLineComparisonVisitor` over the visited lines of a
traversal. -/
def linesFold (base_file head_file : Option RFile)
    (records : List VisitRecord) (acc : List LineComparison) : List LineComparison :=
  records.foldl
    (fun acc r => lineComparisonCall base_file head_file acc r.base r.head r.value r.is_diff)
    acc

/-- The display `Segment` class: a contiguous run of line comparisons. -/
structure Segment : Type where
  _lines : List LineComparison
deriving DecidableEq, Repr

/-- `Segment.padding_lines`: additional lines included before and after
each segment. -/
def Segment.padding_lines : Int := 3

/-- `Segment.line_distance`: max distance between lines with coverage
changes in a single segment. -/
def Segment.line_distance : Nat := 6

/-- A line of interest for `Segment.segments`: coverage changed between
base and head, or the line is part of the diff (added/removed). -/
def lineOfInterest (line : LineComparison) : Bool :=
  decide (line.coverageBase ≠ line.coverageHead) || line.added || line.removed

/-- Append `n` to the last group (the `segmented_lines[-1].append(...)`
branch of `Segment.segments`). -/
def appendToLast : List (List Nat) → Nat → List (List Nat)
  | [], n => [[n]]
  | [g], n => [g ++ [n]]
  | g :: gs, n => g :: appendToLast gs n

/-- The body of the grouping loop of `Segment.segments`: append the
line number to the last group when `last` is unset or the gap from the
previous number is at most `line_distance`, else open a new group.
(Python `line_number - last` compared with `<= 6` agrees with
truncated `Nat` subtraction for all naturals.) -/
def groupStep (acc : List (List Nat) × Option Nat) (line_number : Nat) :
    List (List Nat) × Option Nat :=
  match acc with
  | (segmented_lines, last) =>
    if last = none ∨ line_number - last.getD 0 ≤ Segment.line_distance then
      (appendToLast segmented_lines line_number, some line_number)
    else (segmented_lines ++ [[line_number]], some line_number)

/-- The grouping loop of `Segment.segments`: starting from `[[]]` and
`last = None` when any line of interest exists. -/
def groupLineNumbers (line_numbers : List Nat) : List (List Nat) :=
  if line_numbers.isEmpty then []
  else (line_numbers.foldl groupStep ([[]], none)).1

/-- The indices (into the line-comparison list) of the lines of
interest, in order — the `line_numbers` list of `Segment.segments`. -/
def interestIndices (lines : List LineComparison) : List Nat :=
  ((lines.enum.filter (fun p => lineOfInterest p.2)).map (fun p => p.1))

/-- One padded, clamped display segment for a group of interest
indices, as built by the final loop of `Segment.segments`. -/
def paddedSegment (lines : List LineComparison) (group : List Nat) : Segment :=
  let start_line_number := max ((group.headD 0 : Int) - Segment.padding_lines) 0
  let end_line_number :=
    min ((group.getLastD 0 : Int) + Segment.padding_lines) ((lines.length : Int) - 1)
  ⟨(lines.drop start_line_number.toNat).take (end_line_number + 1 - start_line_number).toNat⟩

/-- `Segment.segments`, as a function of the file's line-comparison
list. -/
def Segment.segmentsOf (lines : List LineComparison) : List Segment :=
  (groupLineNumbers (interestIndices lines)).map (paddedSegment lines)

/-- Specification-side clustering helper: extend the current cluster
while the next index of interest is within `line_distance`. -/
def clusterGo (x : Nat) (cur : List Nat) : List Nat → List (List Nat)
  | [] => [cur]
  | y :: ys =>
    if y - x ≤ Segment.line_distance then clusterGo y (cur ++ [y]) ys
    else cur :: clusterGo y [y] ys

/-- Specification-side clustering, following the spec's words: group
consecutive indices of interest into clusters where the gap between
successive indices is at most `line_distance`. -/
def clusterSpec : List Nat → List (List Nat)
  | [] => []
  | x :: xs => clusterGo x [x] xs

/-- Specification-side segments: one padded, clamped segment per
cluster of interest indices. -/
def specSegments (lines : List LineComparison) : List Segment :=
  (clusterSpec (interestIndices lines)).map (paddedSegment lines)

/-- The diff data attached to a `FileComparison` (the per-file entry of
the git comparison); only the `segments` key is relevant here, and it
may be missing (`none`). -/
structure DiffData : Type where
  segments : Option (List DiffSegment)
deriving DecidableEq, Repr

/-- `MAX_DIFF_SIZE`. -/
def MAX_DIFF_SIZE : Nat := 170

/-- The `FileComparison` object (the constructor arguments that decide
its behavior). -/
structure FileComparison : Type where
  base_file : Option RFile
  head_file : Option RFile
  diff_data : Option DiffData := none
  src : List String := []
  bypass_max_diff : Bool := false
  should_search_for_changes : Option Bool := none
deriving DecidableEq, Repr

/-- `FileComparison.total_diff_length`: the summed segment line counts,
or 0 when there is no diff data or no (or an empty, hence falsy)
segments list. -/
def FileComparison.total_diff_length (fc : FileComparison) : Nat :=
  match fc.diff_data with
  | some dd =>
    match dd.segments with
    | some segs => if segs.isEmpty then 0 else (segs.map (fun seg => seg.lines.length)).sum
    | none => 0
  | none => 0

/-- The guard of `_calculated_changes_and_lines`: `self.diff_data or
self.src or self.should_search_for_changes is not False`. -/
def FileComparison.shouldTraverse (fc : FileComparison) : Bool :=
  fc.diff_data.isSome || !fc.src.isEmpty ||
    decide (fc.should_search_for_changes ≠ some false)

/-- The segments passed to the traverser:
`diff_data["segments"] if diff_data and "segments" in diff_data else []`. -/
def FileComparison.diffSegments (fc : FileComparison) : List DiffSegment :=
  match fc.diff_data with
  | some dd => dd.segments.getD []
  | none => []

/-- The initial traverser state built by
`_calculated_changes_and_lines` (eofs default to 0 for a missing
file). -/
def FileComparison.traversalInit (fc : FileComparison) : TravState :=
  TravState.init
    (match fc.head_file with | some f => f.eof | none => 0)
    (match fc.base_file with | some f => f.eof | none => 0)
    fc.diffSegments fc.src

/-- Fuel that bounds the loop iterations needed on the inputs the
claims evaluate concretely; on terminating inputs any larger fuel
yields the same run. -/
def fcFuel (s : TravState) : Nat :=
  (s.segments.map (fun seg => seg.lines.length)).sum + s.src.length +
    s.head_file_eof.toNat + s.base_file_eof.toNat + 4

/-- `FileComparison._calculated_changes_and_lines`: run both visitors
over the traversal when the guard holds, else return the untouched
visitor states.  A run whose exception escapes (impossible on the
inputs considered by the claims) is mapped to the untouched states. -/
def FileComparison._calculated_changes_and_lines (fc : FileComparison) :
    ChangeSummary × List LineComparison :=
  if fc.shouldTraverse then
    match runN (fcFuel fc.traversalInit) fc.traversalInit with
    | some (records, _) =>
      (summaryFold fc.base_file fc.head_file records ChangeSummary.zero,
       linesFold fc.base_file fc.head_file records [])
    | none => (ChangeSummary.zero, [])
  else (ChangeSummary.zero, [])

/-- `FileComparison.change_summary`. -/
def FileComparison.change_summary (fc : FileComparison) : ChangeSummary :=
  fc._calculated_changes_and_lines.1

/-- `FileComparison.has_changes`: `any(self.change_summary.values())`
(a Python int is truthy exactly when nonzero). -/
def FileComparison.has_changes (fc : FileComparison) : Bool :=
  fc.change_summary.values.any (fun v => decide (v ≠ 0))

/-- `FileComparison.lines`: `None` when the diff exceeds
`MAX_DIFF_SIZE` and truncation is not bypassed, else the
line-comparison list. -/
def FileComparison.lines (fc : FileComparison) : Option (List LineComparison) :=
  if fc.total_diff_length > MAX_DIFF_SIZE ∧ fc.bypass_max_diff = false then none
  else some fc._calculated_changes_and_lines.2

/-- A stored commit row (`core.models.Commit`), with the fields used by
`Comparison.upload_commits`. -/
structure CommitRow : Type where
  commitid : String
  repository : Nat
  deleted : Bool
deriving DecidableEq, Repr

/-- `Comparison.upload_commits` over an explicit commit store: filter
by commit-id membership and repository, then call `.exclude(deleted=True)`
— whose result the source discards, exactly as written. -/
def upload_commits (store : List CommitRow) (git_commit_ids : List String)
    (base_repository : Nat) : List CommitRow :=
  let commits_queryset :=
    store.filter (fun c =>
      decide (c.commitid ∈ git_commit_ids) && decide (c.repository = base_repository))
  let _discarded := commits_queryset.filter (fun c => !c.deleted)
  commits_queryset

/-- `PullRequestComparison._files_with_changes`: the decoded cache
value on a successful read (`none` when the key is absent, since
`json.loads(json.dumps(None))` is `None`), and `None` when the read
raises an `OSError` (the handler only logs). -/
def _files_with_changes (redis_read : Except Unit (Option (List String))) :
    Option (List String) :=
  match redis_read with
  | .error _ => none
  | .ok changes => changes

/-- The `should_search_for_changes` assignment of
`PullRequestComparison.get_file_comparison`. -/
def pullRequestGetFileComparison (fc : FileComparison)
    (files_with_changes : Option (List String)) (file_name : String) : FileComparison :=
  { fc with
    should_search_for_changes :=
      match files_with_changes with
      | some files => some (decide (file_name ∈ files))
      | none => none }

/-- The diff segment of the spec's concrete example for the cursor
initialization claim: header `[0,0,1,3]`, lines `["+a","+b"," c"]`. -/
def segC1 : DiffSegment := ⟨0, 0, 1, 3, ["+a", "+b", " c"]⟩

/-- The base/head number pair and added flag of a visited line, as the
concrete cursor-initialization example observes them. -/
def visitTriple (r : VisitRecord) : Option Int × Option Int × Bool :=
  (r.base, r.head, _is_added r.value)

/-- A `FileComparison` with no diff and no source whose base and head
reports disagree at line 1 (base miss, head hit). -/
def fcC7 : FileComparison :=
  ⟨some ⟨[some ⟨.miss⟩]⟩, some ⟨[some ⟨.hit⟩]⟩, none, [], false, none⟩

/-- A `FileComparison` with no diff and no source and an empty base
report file. -/
def fcC7w : FileComparison :=
  ⟨some ⟨[]⟩, some ⟨[some ⟨.hit⟩]⟩, none, [], false, none⟩

/-- A `FileComparison` whose two non-diff lines change coverage class
in opposite directions (line 1: miss to hit, line 2: hit to miss). -/
def fcCancel : FileComparison :=
  ⟨some ⟨[some ⟨.miss⟩, some ⟨.hit⟩]⟩, some ⟨[some ⟨.hit⟩, some ⟨.miss⟩]⟩,
    none, [], false, none⟩

/-- A `FileComparison` whose single diff segment has 171 lines, one
over `MAX_DIFF_SIZE`. -/
def fcBig : FileComparison :=
  ⟨none, none, some ⟨some [⟨1, 0, 1, 171, List.replicate 171 "+x"⟩]⟩, [], false, none⟩

/-- Context line-comparison used to build the segment-grouping
example: nothing of interest. -/
def lcCtx : LineComparison := ⟨none, none, some 1, some 1, " x", false⟩

/-- Added line-comparison used to build the segment-grouping example. -/
def lcAdded : LineComparison := ⟨none, none, none, some 1, "+x", true⟩

/-- A 41-line file whose lines of interest sit at indices 5 and 40. -/
def linesC6 : List LineComparison :=
  (List.range 41).map (fun i => if i = 5 ∨ i = 40 then lcAdded else lcCtx)

/-- One state reaches another in finitely many loop iterations. -/
def Reaches (s t : TravState) : Prop := ∃ n, applyN n s = some t

/-- Number of lines of a segment that are not added (they advance the
base cursor): the base-side width of a well-formed hunk. -/
def nonAddedCount (ls : List String) : Nat :=
  ls.countP (fun v => !_is_added (some v))

/-- Number of lines of a segment that are not removed (they advance
the head cursor): the head-side width of a well-formed hunk. -/
def nonRemovedCount (ls : List String) : Nat :=
  ls.countP (fun v => !_is_removed (some v))

/-- A well-formed hunk: non-empty lines whose non-added line count
matches the base count of the header and whose non-removed line count
matches the head count. -/
def segWF (seg : DiffSegment) : Bool :=
  !seg.lines.isEmpty &&
  decide ((nonAddedCount seg.lines : Int) = seg.base_count) &&
  decide ((nonRemovedCount seg.lines : Int) = seg.head_count)

/-- Well-formed hunk chain starting with cursors `(b, h)`: each hunk
is well formed, starts at or after the entry cursors, and keeps the
base/head offsets aligned (as the hunks of a real unified diff do,
sorted ascending and non-overlapping). -/
def chainWF : Int → Int → List DiffSegment → Bool
  | _, _, [] => true
  | b, h, seg :: rest =>
    decide (seg.base_start - b = seg.head_start - h) &&
    decide (0 ≤ seg.base_start - b) &&
    segWF seg &&
    chainWF (seg.base_start + seg.base_count) (seg.head_start + seg.head_count) rest

/-- No source line carries a spurious diff prefix (`+` or `-`). -/
def srcOK (src : List String) : Bool :=
  src.all (fun v => !_is_added (some v) && !_is_removed (some v))

/-- Head cursor position after consuming all hunks, entering at `h`. -/
def headExitAfter (h : Int) : List DiffSegment → Int
  | [] => h
  | seg :: rest => headExitAfter (seg.head_start + seg.head_count) rest

/-- The initial base cursor of `TravState.init`. -/
def initBase (segments : List DiffSegment) : Int :=
  match segments with
  | [] => 1
  | seg :: _ => min 1 seg.base_start

/-- The initial head cursor of `TravState.init`. -/
def initHead (segments : List DiffSegment) : Int :=
  match segments with
  | [] => 1
  | seg :: _ => min 1 seg.head_start

/-- The state on which the traversal loop never finishes: one sorted
segment whose header `[1,1,1,1]` covers only its first context line;
after that line is consumed the cursors leave the hunk ranges forever
while the remaining line keeps the segment queue non-empty. -/
def c4BadState : TravState := ⟨0, 0, [⟨1, 1, 1, 1, [" a", " b"]⟩], [], 1, 1⟩

/-! ### Basic lemmas about the traversal loop -/

theorem runN_finished (n : Nat) (s : TravState) (h : traverse_finished s = true) :
    runN n s = some ([], s) := by
  cases n <;> simp [runN, h]

theorem applyN_finished (n : Nat) (s : TravState) (h : traverse_finished s = true) :
    applyN n s = some s := by
  simp [applyN, runN_finished n s h]

theorem applyN_zero (s : TravState) : applyN 0 s = some s := rfl

theorem runN_succ_step (n : Nat) (s : TravState) (r : VisitRecord) (s' : TravState)
    (hf : traverse_finished s = false) (hs : step s = some (r, s')) :
    runN (n + 1) s = (runN n s').map (fun p => (r :: p.1, p.2)) := by
  simp [runN, hf, hs]

theorem applyN_succ_step (n : Nat) (s : TravState) (r : VisitRecord) (s' : TravState)
    (hf : traverse_finished s = false) (hs : step s = some (r, s')) :
    applyN (n + 1) s = applyN n s' := by
  simp only [applyN, runN_succ_step n s r s' hf hs]
  cases runN n s' <;> rfl

theorem runN_succ_none (n : Nat) (s : TravState)
    (hf : traverse_finished s = false) (hs : step s = none) :
    runN (n + 1) s = none := by
  simp [runN, hf, hs]

theorem applyN_add (m n : Nat) (s : TravState) :
    applyN (m + n) s = (applyN m s).bind (applyN n) := by
  induction m generalizing s with
  | zero => simp [applyN_zero, Nat.zero_add, Option.bind]
  | succ m ih =>
    cases hf : traverse_finished s with
    | true =>
      rw [applyN_finished _ s hf, applyN_finished _ s hf]
      simp [Option.bind, applyN_finished n s hf]
    | false =>
      cases hs : step s with
      | none =>
        have h1 : applyN (m + 1 + n) s = none := by
          have : m + 1 + n = (m + n) + 1 := by omega
          rw [this, applyN, runN_succ_none _ s hf hs]; rfl
        have h2 : applyN (m + 1) s = none := by
          rw [applyN, runN_succ_none m s hf hs]; rfl
        rw [h1, h2]; rfl
      | some p =>
        obtain ⟨r, s'⟩ := p
        have h1 : applyN (m + 1 + n) s = applyN (m + n) s' := by
          have : m + 1 + n = (m + n) + 1 := by omega
          rw [this, applyN_succ_step (m + n) s r s' hf hs]
        rw [h1, applyN_succ_step m s r s' hf hs, ih s']

theorem reaches_refl (s : TravState) : Reaches s s := ⟨0, rfl⟩

theorem reaches_trans {s t u : TravState} (h1 : Reaches s t) (h2 : Reaches t u) :
    Reaches s u := by
  obtain ⟨m, hm⟩ := h1
  obtain ⟨n, hn⟩ := h2
  exact ⟨m + n, by rw [applyN_add, hm]; exact hn⟩

theorem terminatesFrom_of_reaches {s t : TravState} (h1 : Reaches s t)
    (h2 : terminatesFrom t) : terminatesFrom s := by
  obtain ⟨m, hm⟩ := h1
  obtain ⟨n, u, hn, hu⟩ := h2
  exact ⟨m + n, u, by rw [applyN_add, hm]; exact hn, hu⟩

theorem pyGet_nil {α : Type} (i : Int) : pyGet ([] : List α) i = none := by
  simp [pyGet]

theorem pyGet_mem {α : Type} {xs : List α} {i : Int} {a : α}
    (h : pyGet xs i = some a) : a ∈ xs := by
  unfold pyGet at h
  split at h
  · exact List.get?_mem h
  · split at h
    · exact List.get?_mem h
    · exact absurd h (by simp)

theorem _get_line_some_eq (f : RFile) (n : Int) :
    _get_line (some f) (some n) =
      match pyGet f._lines (n - 1) with
      | none => none
      | some line => line := rfl

theorem _get_line_mem {f : RFile} {ln : Option Int} {r : RLine}
    (h : _get_line (some f) ln = some r) : some r ∈ f._lines := by
  cases ln with
  | none => exact absurd h (by simp [_get_line])
  | some n =>
    rw [_get_line_some_eq] at h
    cases hp : pyGet f._lines (n - 1) with
    | none =>
      simp only [hp] at h
      exact Option.noConfusion h
    | some line =>
      simp only [hp] at h
      subst h
      exact pyGet_mem hp

/-! ### Claim theorems -/

/-- C1 (amended): for every non-empty segments list, the initial base
and head cursors are set to `min(1, header.base_start)` and
`min(1, header.head_start)` (the cursor starts at 1, or at the header
value when that is 0 or below); for the single segment with header
`[0,0,1,3]`, lines `["+a","+b"," c"]` and no source, apply visits
exactly three lines with number pairs `(None,1)`, `(None,2)`, `(0,3)`,
the first two flagged added, and then finishes. -/
theorem c1_cursor_initialization :
    (∀ (head_file_eof base_file_eof : Int) (seg : DiffSegment)
        (rest : List DiffSegment) (src : List String),
      (TravState.init head_file_eof base_file_eof (seg :: rest) src).base_ln =
          min 1 seg.base_start ∧
      (TravState.init head_file_eof base_file_eof (seg :: rest) src).head_ln =
          min 1 seg.head_start) ∧
    (runN 10 (TravState.init 0 0 [segC1] [])).map (fun p => p.1.map visitTriple) =
      some [(none, some 1, true), (none, some 2, true), (some 0, some 3, false)] ∧
    (applyN 10 (TravState.init 0 0 [segC1] [])).map traverse_finished = some true := by
  refine ⟨fun heof beof seg rest src => ⟨rfl, rfl⟩, by decide, by decide⟩

/-- C1 counterexample: the cursors are not clamped *up* to 1 — for the
claim's own example (header base-start 0) the base cursor starts at 0,
not `max 1 0`, and the third visited line carries base number 0, not 1. -/
theorem c1_counterexample :
    (TravState.init 0 0 [segC1] []).base_ln ≠ max 1 ((0 : Int)) ∧
    (runN 10 (TravState.init 0 0 [segC1] [])).map (fun p => p.1.map visitTriple) ≠
      some [(none, some 1, true), (none, some 2, true), (some 1, some 3, false)] := by
  decide

/-- C2: the change-summary visitor skips lines whose value starts with
`+` or `-`, skips lines where either report line is absent, skips lines
whose base and head coverage classes are equal, and otherwise
decrements the bucket of the base class and increments the bucket of
the head class; concretely, base miss / head hit from a zero summary
yields `{hits: +1, misses: -1}`. -/
theorem c2_change_summary_visitor (base_file head_file : Option RFile)
    (cs : ChangeSummary) (base_ln head_ln : Option Int) (value : Option String) :
    (valueIsPlusMinus value = true →
      changeSummaryCall base_file head_file cs base_ln head_ln value = cs) ∧
    (_get_line base_file base_ln = none ∨ _get_line head_file head_ln = none →
      changeSummaryCall base_file head_file cs base_ln head_ln value = cs) ∧
    (∀ bl hl, _get_line base_file base_ln = some bl →
      _get_line head_file head_ln = some hl → bl.cov = hl.cov →
      changeSummaryCall base_file head_file cs base_ln head_ln value = cs) ∧
    (∀ bl hl, valueIsPlusMinus value = false →
      _get_line base_file base_ln = some bl →
      _get_line head_file head_ln = some hl → bl.cov ≠ hl.cov →
      changeSummaryCall base_file head_file cs base_ln head_ln value =
        (cs.add bl.cov (-1)).add hl.cov 1) ∧
    changeSummaryCall (some ⟨[some ⟨.miss⟩]⟩) (some ⟨[some ⟨.hit⟩]⟩)
        ChangeSummary.zero (some 1) (some 1) (some " x") = ⟨1, -1, 0⟩ := by
  refine ⟨?_, ?_, ?_, ?_, by decide⟩
  · intro hv
    simp [changeSummaryCall, hv]
  · intro habs
    unfold changeSummaryCall
    split
    · rfl
    · cases habs with
      | inl h => rw [h]
      | inr h => rw [h]; cases _get_line base_file base_ln <;> rfl
  · intro bl hl hb hh heq
    unfold changeSummaryCall
    split
    · rfl
    · rw [hb, hh]
      simp [heq]
  · intro bl hl hv hb hh hne
    unfold changeSummaryCall
    rw [hv, hb, hh]
    simp only [Bool.false_eq_true, if_false]
    simp [hne, _update_summary]

/-- C2 witness: the skip and update branches evaluated at concrete
inputs via the theorem. -/
theorem c2_witness :
    changeSummaryCall (some ⟨[some ⟨.miss⟩]⟩) (some ⟨[some ⟨.hit⟩]⟩)
        ChangeSummary.zero (some 1) (some 1) (some " x") =
      (ChangeSummary.zero.add LineType.miss (-1)).add LineType.hit 1 ∧
    changeSummaryCall (some ⟨[some ⟨.miss⟩]⟩) (some ⟨[some ⟨.hit⟩]⟩)
        ChangeSummary.zero (some 1) (some 1) (some "+x") = ChangeSummary.zero :=
  ⟨(c2_change_summary_visitor (some ⟨[some ⟨.miss⟩]⟩) (some ⟨[some ⟨.hit⟩]⟩)
      ChangeSummary.zero (some 1) (some 1) (some " x")).2.2.2.1
      ⟨.miss⟩ ⟨.hit⟩ (by decide) (by decide) (by decide) (by decide),
   (c2_change_summary_visitor (some ⟨[some ⟨.miss⟩]⟩) (some ⟨[some ⟨.hit⟩]⟩)
      ChangeSummary.zero (some 1) (some 1) (some "+x")).1 (by decide)⟩

/-- C5 (amended): `_get_line` is null when the file is absent or the
line number is null; for an integer line number it follows Python
indexing on `_lines[ln - 1]`: null when the index is out of Python
range (`ln - 1 ≥ len` or `ln - 1 < -len`), and otherwise the stored
entry at the resolved index (which is itself null for an untracked
line); in particular `ln = 0` on a non-empty file resolves to the
*last* stored line, not null. -/
theorem c5_get_line_characterization (f : RFile) (n : Int) (ln : Option Int) :
    _get_line none ln = none ∧
    _get_line (some f) none = none ∧
    ((n - 1 < -(f._lines.length : Int) ∨ (f._lines.length : Int) ≤ n - 1) →
      _get_line (some f) (some n) = none) ∧
    (0 ≤ n - 1 → n - 1 < (f._lines.length : Int) →
      _get_line (some f) (some n) = (f._lines.get? (n - 1).toNat).join) ∧
    (n - 1 < 0 → 0 ≤ (f._lines.length : Int) + (n - 1) →
      _get_line (some f) (some n) =
        (f._lines.get? ((f._lines.length : Int) + (n - 1)).toNat).join) := by
  refine ⟨by cases ln <;> rfl, by cases f; rfl, ?_, ?_, ?_⟩
  · intro hout
    rw [_get_line_some_eq]
    have hp : pyGet f._lines (n - 1) = none := by
      unfold pyGet
      cases hout with
      | inl h =>
        rw [if_neg (by omega), if_neg (by omega)]
      | inr h =>
        rw [if_pos (by omega)]
        exact List.get?_eq_none.mpr (by omega)
    rw [hp]
  · intro h0 hlt
    rw [_get_line_some_eq]
    have hp : pyGet f._lines (n - 1) = f._lines.get? (n - 1).toNat := by
      unfold pyGet
      rw [if_pos h0]
    rw [hp]
    have hidx : (n - 1).toNat < f._lines.length := by omega
    rw [List.get?_eq_get hidx]
    rfl
  · intro hneg hin
    rw [_get_line_some_eq]
    have hp : pyGet f._lines (n - 1) =
        f._lines.get? ((f._lines.length : Int) + (n - 1)).toNat := by
      unfold pyGet
      rw [if_neg (by omega), if_pos hin]
    rw [hp]
    have hidx : ((f._lines.length : Int) + (n - 1)).toNat < f._lines.length := by omega
    rw [List.get?_eq_get hidx]
    rfl

/-- C5 witness: the negative-index branch at `ln = 0` on a two-line
file resolves to the last stored line. -/
theorem c5_witness :
    _get_line (some ⟨[some ⟨.hit⟩, some ⟨.miss⟩]⟩) (some 0) = some ⟨.miss⟩ := by
  have h := (c5_get_line_characterization ⟨[some ⟨.hit⟩, some ⟨.miss⟩]⟩ 0 none).2.2.2.2
    (by decide) (by decide)
  rw [h]
  decide

/-- C5 counterexample: the claim requires null for every out-of-range
integer line number including 0, but `ln = 0` on a one-line file
returns the stored line (Python index `-1`). -/
theorem c5_counterexample :
    _get_line (some ⟨[some ⟨.hit⟩]⟩) (some 0) ≠ none := by
  decide

/-- C8: with the `exclude` result discarded, a stored commit whose id
is in the forward diff's commit list and whose repository matches is
returned by `upload_commits` even when it is marked deleted. -/
theorem c8_deleted_commit_returned :
    upload_commits [⟨"abc123", 1, true⟩] ["abc123"] 1 = [⟨"abc123", 1, true⟩] ∧
    (⟨"abc123", 1, true⟩ : CommitRow).deleted = true := by
  decide

/-- C9: a cache read failing with a connectivity error makes
`_files_with_changes` null instead of propagating, so
`get_file_comparison` sets `should_search_for_changes` to null and the
traversal guard of `_calculated_changes_and_lines` holds (full
traversal fallback). -/
theorem c9_cache_error_fallback (fc : FileComparison) (file_name : String) :
    _files_with_changes (Except.error ()) = none ∧
    (pullRequestGetFileComparison fc
        (_files_with_changes (Except.error ())) file_name).should_search_for_changes =
      none ∧
    (pullRequestGetFileComparison fc
        (_files_with_changes (Except.error ())) file_name).shouldTraverse = true := by
  refine ⟨rfl, rfl, ?_⟩
  simp [pullRequestGetFileComparison, FileComparison.shouldTraverse, _files_with_changes]

/-- C10: `has_changes` holds exactly when some counter bucket of the
change summary is nonzero; the concrete file `fcCancel`, whose line 1
goes miss-to-hit and line 2 goes hit-to-miss, has an all-zero summary
and reports no changes even though both lines changed class. -/
theorem c10_has_changes (fc : FileComparison) :
    (fc.has_changes = true ↔
      (fc.change_summary.hits ≠ 0 ∨ fc.change_summary.misses ≠ 0 ∨
        fc.change_summary.partials ≠ 0)) ∧
    FileComparison.has_changes fcCancel = false ∧
    FileComparison.change_summary fcCancel = ChangeSummary.zero ∧
    (_get_line fcCancel.base_file (some 1)).map RLine.cov = some .miss ∧
    (_get_line fcCancel.head_file (some 1)).map RLine.cov = some .hit ∧
    (_get_line fcCancel.base_file (some 2)).map RLine.cov = some .hit ∧
    (_get_line fcCancel.head_file (some 2)).map RLine.cov = some .miss := by
  refine ⟨?_, by decide, by decide, by decide, by decide, by decide, by decide⟩
  simp [FileComparison.has_changes, ChangeSummary.values, List.any]

set_option maxRecDepth 40000 in
/-- C3: a diff longer than `MAX_DIFF_SIZE` with truncation not
bypassed makes `lines` null, while the change summary is unaffected by
the bypass flag (truncation is display-only); otherwise `lines` is the
visitor-built list.  The concrete 171-line diff `fcBig` has null lines,
its bypassed variant serializes all 171 line comparisons, and both have
the same change summary. -/
theorem c3_truncation (fc : FileComparison) :
    (fc.total_diff_length > MAX_DIFF_SIZE → fc.bypass_max_diff = false →
      fc.lines = none) ∧
    (fc.total_diff_length ≤ MAX_DIFF_SIZE ∨ fc.bypass_max_diff = true →
      fc.lines = some fc._calculated_changes_and_lines.2) ∧
    (∀ b, ({ fc with bypass_max_diff := b } : FileComparison).change_summary =
      fc.change_summary) ∧
    fcBig.lines = none ∧
    (({ fcBig with bypass_max_diff := true } : FileComparison).lines).map List.length =
      some 171 ∧
    ({ fcBig with bypass_max_diff := true } : FileComparison).change_summary =
      fcBig.change_summary := by
  refine ⟨?_, ?_, fun b => rfl, by decide, by decide, by decide⟩
  · intro hbig hnb
    rw [FileComparison.lines, if_pos ⟨hbig, hnb⟩]
  · intro h
    rw [FileComparison.lines, if_neg ?_]
    rintro ⟨h1, h2⟩
    cases h with
    | inl h => omega
    | inr h => rw [h] at h2; exact Bool.noConfusion h2

set_option maxRecDepth 40000 in
/-- C3 witness: the truncation branch of the theorem applied at the
concrete over-limit file. -/
theorem c3_witness :
    fcBig.total_diff_length > MAX_DIFF_SIZE ∧ fcBig.lines = none :=
  ⟨by decide, (c3_truncation fcBig).1 (by decide) rfl⟩

theorem appendToLast_append :
    ∀ (gs : List (List Nat)) (cur : List Nat) (n : Nat),
      appendToLast (gs ++ [cur]) n = gs ++ [cur ++ [n]]
  | [], cur, n => rfl
  | g :: gs, cur, n => by
    have ih := appendToLast_append gs cur n
    cases gs with
    | nil => rfl
    | cons a l =>
      show g :: appendToLast ((a :: l) ++ [cur]) n = _
      rw [ih]
      rfl

theorem foldl_groupStep (xs : List Nat) :
    ∀ (gs : List (List Nat)) (cur : List Nat) (x : Nat),
      (xs.foldl groupStep (gs ++ [cur], some x)).1 = gs ++ clusterGo x cur xs := by
  induction xs with
  | nil => intro gs cur x; simp [clusterGo]
  | cons y ys ih =>
    intro gs cur x
    rw [List.foldl_cons]
    by_cases hgap : y - x ≤ Segment.line_distance
    · have hstep : groupStep (gs ++ [cur], some x) y = (gs ++ [cur ++ [y]], some y) := by
        simp [groupStep, hgap, appendToLast_append]
      rw [hstep, ih gs (cur ++ [y]) y, clusterGo, if_pos hgap]
    · have hstep : groupStep (gs ++ [cur], some x) y = ((gs ++ [cur]) ++ [[y]], some y) := by
        simp [groupStep, hgap]
      rw [hstep, ih (gs ++ [cur]) [y] y, clusterGo, if_neg hgap]
      simp

theorem groupLineNumbers_eq_clusterSpec (line_numbers : List Nat) :
    groupLineNumbers line_numbers = clusterSpec line_numbers := by
  cases line_numbers with
  | nil => rfl
  | cons x xs =>
    rw [groupLineNumbers, if_neg (by simp), List.foldl_cons]
    have hstep : groupStep ([[]], none) x = ([] ++ [[x]], some x) := by
      simp [groupStep, appendToLast]
    rw [hstep, foldl_groupStep xs [] [x] x]
    rfl

/-- C6: the display segments are exactly one padded, clamped slice per
cluster of interest indices, where successive indices of interest at
gap at most `line_distance` (6) share a cluster; the 41-line file with
interest at indices 5 and 40 (gap 35) yields exactly the two segments
`lines[2..8]` and `lines[37..40]`. -/
theorem c6_segment_grouping :
    (∀ lines : List LineComparison, Segment.segmentsOf lines = specSegments lines) ∧
    interestIndices linesC6 = [5, 40] ∧
    (Segment.segmentsOf linesC6).length = 2 ∧
    Segment.segmentsOf linesC6 =
      [⟨(linesC6.drop 2).take 7⟩, ⟨(linesC6.drop 37).take 4⟩] := by
  refine ⟨?_, by decide, by decide, by decide⟩
  intro lines
  rw [Segment.segmentsOf, specSegments, groupLineNumbers_eq_clusterSpec]

theorem changeSummaryCall_none_value (base_file head_file : Option RFile)
    (agree : ∀ (k : Int) (bl hl : RLine), _get_line base_file (some k) = some bl →
      _get_line head_file (some k) = some hl → bl.cov = hl.cov)
    (cs : ChangeSummary) (k : Int) :
    changeSummaryCall base_file head_file cs (some k) (some k) none = cs := by
  unfold changeSummaryCall
  rw [show valueIsPlusMinus none = false from rfl]
  simp only [Bool.false_eq_true, if_false]
  cases hb : _get_line base_file (some k) with
  | none => simp only [hb]
  | some bl =>
    cases hh : _get_line head_file (some k) with
    | none => simp only [hb, hh]
    | some hl =>
      simp only [hb, hh]
      rw [if_pos (agree k bl hl hb hh)]

theorem runN_no_segments_no_src (base_file head_file : Option RFile) :
    ∀ (n : Nat) (s : TravState), s.segments = [] → s.src = [] →
      s.base_ln = s.head_ln →
      ∃ records t, runN n s = some (records, t) ∧
        (∀ acc, linesFold base_file head_file records acc = acc) ∧
        ((∀ (k : Int) (bl hl : RLine), _get_line base_file (some k) = some bl →
            _get_line head_file (some k) = some hl → bl.cov = hl.cov) →
          ∀ cs, summaryFold base_file head_file records cs = cs) := by
  intro n
  induction n with
  | zero =>
    intro s hseg hsrc heq
    exact ⟨[], s, rfl, fun acc => rfl, fun _ cs => rfl⟩
  | succ n ih =>
    intro s hseg hsrc heq
    cases hf : traverse_finished s with
    | true =>
      refine ⟨[], s, ?_, fun acc => rfl, fun _ cs => rfl⟩
      simp [runN, hf]
    | false =>
      have htrav : traversing_diff s = false := by
        unfold traversing_diff
        rw [hseg]
      have hpop : pop_line s = some none := by
        unfold pop_line
        rw [htrav, hsrc]
        rfl
      have hstep : step s = some (⟨some s.base_ln, some s.head_ln, none, false⟩,
          { s with segments := [], base_ln := s.base_ln + 1, head_ln := s.head_ln + 1 }) := by
        rw [step, hpop]
        simp [_is_added, _is_removed, htrav, popAdjustSegments, hseg]
      obtain ⟨records, t, hrun, hlin, hsum⟩ :=
        ih { s with segments := [], base_ln := s.base_ln + 1, head_ln := s.head_ln + 1 }
          rfl hsrc (by simp [heq])
      refine ⟨⟨some s.base_ln, some s.head_ln, none, false⟩ :: records, t, ?_, ?_, ?_⟩
      · rw [runN_succ_step n s _ _ hf hstep, hrun]
        rfl
      · intro acc
        simp only [linesFold, List.foldl_cons] at hlin ⊢
        exact hlin acc
      · intro agree cs
        have hcall : changeSummaryCall base_file head_file cs
            (some s.base_ln) (some s.head_ln) none = cs := by
          rw [heq]
          exact changeSummaryCall_none_value base_file head_file agree cs s.head_ln
        have hsum' := hsum agree
        simp only [summaryFold, List.foldl_cons] at hsum' ⊢
        rw [hcall]
        exact hsum' cs

/-- C7 (amended): with no diff data and no supplied source, `lines` is
the empty list — unconditionally, whatever report files the comparison
holds — and `change_summary` is all zero provided the base and head
report files assign equal coverage classes at every line number where
both are present (the proviso scopes to the change summary only). -/
theorem c7_no_diff_no_src (fc : FileComparison)
    (hdiff : fc.diff_data = none) (hsrc : fc.src = []) :
    fc.lines = some [] ∧
    ((∀ (k : Int) (bl hl : RLine), _get_line fc.base_file (some k) = some bl →
        _get_line fc.head_file (some k) = some hl → bl.cov = hl.cov) →
      fc.change_summary = ChangeSummary.zero) := by
  have hsegs : fc.diffSegments = [] := by
    simp [FileComparison.diffSegments, hdiff]
  have hinit_seg : fc.traversalInit.segments = [] := by
    simp [FileComparison.traversalInit, hsegs, TravState.init]
  have hinit_src : fc.traversalInit.src = [] := by
    simp [FileComparison.traversalInit, hsegs, TravState.init, hsrc]
  have hinit_eq : fc.traversalInit.base_ln = fc.traversalInit.head_ln := by
    simp [FileComparison.traversalInit, hsegs, TravState.init]
  have hlines0 : fc._calculated_changes_and_lines.2 = [] := by
    unfold FileComparison._calculated_changes_and_lines
    cases hguard : fc.shouldTraverse with
    | false => simp
    | true =>
      obtain ⟨records, t, hrun, hlin, _⟩ :=
        runN_no_segments_no_src fc.base_file fc.head_file
          (fcFuel fc.traversalInit) fc.traversalInit hinit_seg hinit_src hinit_eq
      simp only [if_true]
      rw [hrun]
      simp only
      exact hlin []
  have hsum0 : (∀ (k : Int) (bl hl : RLine), _get_line fc.base_file (some k) = some bl →
      _get_line fc.head_file (some k) = some hl → bl.cov = hl.cov) →
      fc._calculated_changes_and_lines.1 = ChangeSummary.zero := by
    intro agree
    unfold FileComparison._calculated_changes_and_lines
    cases hguard : fc.shouldTraverse with
    | false => simp
    | true =>
      obtain ⟨records, t, hrun, _, hsum⟩ :=
        runN_no_segments_no_src fc.base_file fc.head_file
          (fcFuel fc.traversalInit) fc.traversalInit hinit_seg hinit_src hinit_eq
      simp only [if_true]
      rw [hrun]
      simp only
      exact hsum agree ChangeSummary.zero
  have htot : fc.total_diff_length = 0 := by
    simp [FileComparison.total_diff_length, hdiff]
  refine ⟨?_, ?_⟩
  · rw [FileComparison.lines, if_neg (by rw [htot]; rintro ⟨h1, h2⟩; exact absurd h1 (by decide)),
      hlines0]
  · intro agree
    rw [FileComparison.change_summary, hsum0 agree]

/-- C7 witness: the theorem applied to a file with an empty base
report (vacuous agreement) and a one-line head report, and — for the
unconditional `lines` conjunct — to `fcC7`, whose base and head
reports disagree at line 1. -/
theorem c7_witness :
    FileComparison.lines fcC7w = some [] ∧
    FileComparison.change_summary fcC7w = ChangeSummary.zero ∧
    FileComparison.lines fcC7 = some [] :=
  ⟨(c7_no_diff_no_src fcC7w rfl rfl).1,
   (c7_no_diff_no_src fcC7w rfl rfl).2
     (fun k bl hl hb _ => by
       rw [show fcC7w.base_file = some ⟨[]⟩ from rfl] at hb
       have := _get_line_mem hb
       simp at this),
   (c7_no_diff_no_src fcC7 rfl rfl).1⟩

/-- C7 counterexample: a file with no diff and no source whose base
and head reports disagree at line 1 has a nonzero change summary, so
the claim's "change_summary is all zero" fails. -/
theorem c7_counterexample :
    fcC7.diff_data = none ∧ fcC7.src = [] ∧
    FileComparison.change_summary fcC7 ≠ ChangeSummary.zero := by
  decide

/-! ### Termination of the traversal loop (claim C4) -/

theorem added_not_removed {v : String} (h : _is_added (some v) = true) :
    _is_removed (some v) = false := by
  unfold _is_added at h
  rw [decide_eq_true_eq] at h
  show decide (firstChar v = some '-') = false
  rw [h]
  decide

theorem traverse_finished_cons {s : TravState} {seg : DiffSegment}
    {rest : List DiffSegment} (h : s.segments = seg :: rest) :
    traverse_finished s = false := by
  unfold traverse_finished
  rw [h]
  rfl

theorem traversing_diff_cons {s : TravState} {seg : DiffSegment}
    {rest : List DiffSegment} (h : s.segments = seg :: rest) :
    traversing_diff s =
      ((decide (seg.base_start ≤ s.base_ln) &&
        decide (s.base_ln < seg.base_start + orOne seg.base_count)) ||
       (decide (seg.head_start ≤ s.head_ln) &&
        decide (s.head_ln < seg.head_start + orOne seg.head_count))) := by
  unfold traversing_diff
  rw [h]

theorem terminatesFrom_step {s : TravState} {r : VisitRecord} {s' : TravState}
    (hf : traverse_finished s = false) (hs : step s = some (r, s'))
    (h : terminatesFrom s') : terminatesFrom s := by
  obtain ⟨n, t, hn, ht⟩ := h
  exact ⟨n + 1, t, by rw [applyN_succ_step n s r s' hf hs]; exact hn, ht⟩

theorem reaches_step {s : TravState} {r : VisitRecord} {s' : TravState}
    (hf : traverse_finished s = false) (hs : step s = some (r, s')) :
    Reaches s s' :=
  ⟨1, by rw [show (1 : Nat) = 0 + 1 from rfl, applyN_succ_step 0 s r s' hf hs, applyN_zero]⟩

theorem step_not_traversing (s : TravState) (htrav : traversing_diff s = false)
    {lv : Option String} (hpop : pop_line s = some lv)
    (hkeep : ∀ seg rest, s.segments = seg :: rest → seg.lines.isEmpty = false) :
    step s = some (⟨if _is_added lv then none else some s.base_ln,
                    if _is_removed lv then none else some s.head_ln, lv, false⟩,
      { s with base_ln := if _is_added lv then s.base_ln else s.base_ln + 1,
               head_ln := if _is_removed lv then s.head_ln else s.head_ln + 1 }) := by
  rw [step, hpop]
  have hadj : popAdjustSegments s = s.segments := by
    unfold popAdjustSegments
    rw [htrav]
    rfl
  simp only [htrav, hadj]
  cases hs : s.segments with
  | nil => rfl
  | cons seg rest =>
    simp [hkeep seg rest hs]

theorem pop_line_empty_src (s : TravState) (htrav : traversing_diff s = false)
    (hsrc : s.src = []) : pop_line s = some none := by
  unfold pop_line
  rw [htrav, hsrc]
  rfl

theorem pop_line_src (s : TravState) (htrav : traversing_diff s = false)
    (h1 : 1 ≤ s.head_ln) {v : String}
    (hv : s.src.get? (s.head_ln - 1).toNat = some v) :
    pop_line s = some (some v) := by
  unfold pop_line
  rw [htrav]
  have hne : s.src.isEmpty = false := by
    cases hs : s.src with
    | nil => rw [hs] at hv; exact absurd hv (by simp)
    | cons a l => rfl
  rw [hne]
  show (pyGet s.src (s.head_ln - 1)).map some = some (some v)
  unfold pyGet
  rw [if_pos (by omega), hv]
  rfl

theorem terminates_no_segments_no_src :
    ∀ (m : Nat) (s : TravState), s.segments = [] → s.src = [] →
      (s.head_file_eof - s.head_ln).toNat + (s.base_file_eof - s.base_ln).toNat ≤ m →
      terminatesFrom s := by
  intro m
  induction m with
  | zero =>
    intro s hseg hsrc hm
    refine ⟨0, s, applyN_zero s, ?_⟩
    simp only [traverse_finished, hseg, hsrc, List.isEmpty_nil, Bool.not_true,
      Bool.false_eq_true, if_false, Bool.and_eq_true, decide_eq_true_eq]
    omega
  | succ m ih =>
    intro s hseg hsrc hm
    cases hf : traverse_finished s with
    | true => exact ⟨0, s, applyN_zero s, hf⟩
    | false =>
      have hlt : ¬(s.head_file_eof ≤ s.head_ln ∧ s.base_file_eof ≤ s.base_ln) := by
        intro ⟨h1, h2⟩
        have hft : traverse_finished s = true := by
          simp only [traverse_finished, hseg, hsrc, List.isEmpty_nil, Bool.not_true,
            Bool.false_eq_true, if_false, Bool.and_eq_true, decide_eq_true_eq]
          exact ⟨h1, h2⟩
        rw [hf] at hft
        exact Bool.noConfusion hft
      have htrav : traversing_diff s = false := by
        unfold traversing_diff
        rw [hseg]
      have hstep := step_not_traversing s htrav (pop_line_empty_src s htrav hsrc)
        (fun seg rest h => absurd (hseg ▸ h) (by simp))
      simp only [_is_added, _is_removed, if_false] at hstep
      refine terminatesFrom_step hf hstep (ih _ hseg hsrc ?_)
      show (s.head_file_eof - (s.head_ln + 1)).toNat +
        (s.base_file_eof - (s.base_ln + 1)).toNat ≤ m
      omega

theorem terminates_no_segments_src :
    ∀ (m : Nat) (s : TravState), s.segments = [] → s.src ≠ [] →
      srcOK s.src = true → 1 ≤ s.head_ln →
      ((s.src.length : Int) + 1 - s.head_ln).toNat ≤ m →
      terminatesFrom s := by
  intro m
  induction m with
  | zero =>
    intro s hseg hne hok h1 hm
    refine ⟨0, s, applyN_zero s, ?_⟩
    have hsrcne : s.src.isEmpty = false := by
      cases hs : s.src with
      | nil => exact absurd hs hne
      | cons a l => rfl
    simp only [traverse_finished, hseg, hsrcne, List.isEmpty_nil, Bool.not_true,
      Bool.not_false, Bool.false_eq_true, if_false, if_true, decide_eq_true_eq]
    omega
  | succ m ih =>
    intro s hseg hne hok h1 hm
    have hsrcne : s.src.isEmpty = false := by
      cases hs : s.src with
      | nil => exact absurd hs hne
      | cons a l => rfl
    cases hf : traverse_finished s with
    | true => exact ⟨0, s, applyN_zero s, hf⟩
    | false =>
      have hle : s.head_ln ≤ (s.src.length : Int) := by
        by_contra hgt
        have hft : traverse_finished s = true := by
          simp only [traverse_finished, hseg, hsrcne, List.isEmpty_nil, Bool.not_true,
            Bool.not_false, Bool.false_eq_true, if_false, if_true, decide_eq_true_eq]
          omega
        rw [hf] at hft
        exact Bool.noConfusion hft
      have htrav : traversing_diff s = false := by
        unfold traversing_diff
        rw [hseg]
      have hidx : (s.head_ln - 1).toNat < s.src.length := by omega
      obtain ⟨v, hv⟩ : ∃ v, s.src.get? (s.head_ln - 1).toNat = some v := by
        rw [List.get?_eq_get hidx]
        exact ⟨_, rfl⟩
      have hvmem : v ∈ s.src := List.get?_mem hv
      have hflags := (List.all_eq_true.mp hok) v hvmem
      rw [Bool.and_eq_true, Bool.not_eq_true', Bool.not_eq_true'] at hflags
      have hstep := step_not_traversing s htrav (pop_line_src s htrav h1 hv)
        (fun seg rest h => absurd (hseg ▸ h) (by simp))
      rw [hflags.1, hflags.2] at hstep
      simp only [Bool.false_eq_true, if_false] at hstep
      refine terminatesFrom_step hf hstep (ih _ hseg hne hok ?_ ?_)
      · show (1 : Int) ≤ s.head_ln + 1
        omega
      · show ((s.src.length : Int) + 1 - (s.head_ln + 1)).toNat ≤ m
        omega

theorem walk_reaches :
    ∀ (d : Nat) (s : TravState) (seg : DiffSegment) (rest : List DiffSegment),
      s.segments = seg :: rest →
      seg.base_start - s.base_ln = (d : Int) →
      seg.head_start - s.head_ln = (d : Int) →
      seg.lines.isEmpty = false →
      (s.src = [] ∨ (srcOK s.src = true ∧ 1 ≤ s.head_ln ∧
        seg.head_start ≤ (s.src.length : Int) + 1)) →
      ∃ s', Reaches s s' ∧ s'.segments = s.segments ∧ s'.src = s.src ∧
        s'.head_file_eof = s.head_file_eof ∧ s'.base_file_eof = s.base_file_eof ∧
        s'.base_ln = seg.base_start ∧ s'.head_ln = seg.head_start := by
  intro d
  induction d with
  | zero =>
    intro s seg rest hseg hb hh hlines hsrc
    exact ⟨s, reaches_refl s, rfl, rfl, rfl, rfl, by omega, by omega⟩
  | succ d ih =>
    intro s seg rest hseg hb hh hlines hsrc
    have hf : traverse_finished s = false := traverse_finished_cons hseg
    have hbl : ¬(seg.base_start ≤ s.base_ln) := by omega
    have hhl : ¬(seg.head_start ≤ s.head_ln) := by omega
    have htrav : traversing_diff s = false := by
      rw [traversing_diff_cons hseg]
      simp [hbl, hhl]
    have hkeep : ∀ sg rs, s.segments = sg :: rs → sg.lines.isEmpty = false := by
      intro sg rs h
      rw [hseg] at h
      cases h
      exact hlines
    obtain ⟨lv, hpop, hnotadd, hnotrem⟩ :
        ∃ lv, pop_line s = some lv ∧ _is_added lv = false ∧ _is_removed lv = false := by
      cases hs : s.src with
      | nil => exact ⟨none, pop_line_empty_src s htrav hs, rfl, rfl⟩
      | cons a l =>
        obtain ⟨hok, h1, hbound⟩ := hsrc.resolve_left (by rw [hs]; simp)
        have hle : s.head_ln ≤ (s.src.length : Int) := by omega
        have hidx : (s.head_ln - 1).toNat < s.src.length := by omega
        obtain ⟨v, hv⟩ : ∃ v, s.src.get? (s.head_ln - 1).toNat = some v := by
          rw [List.get?_eq_get hidx]
          exact ⟨_, rfl⟩
        have hvmem : v ∈ s.src := List.get?_mem hv
        have hflags := (List.all_eq_true.mp hok) v hvmem
        rw [Bool.and_eq_true, Bool.not_eq_true', Bool.not_eq_true'] at hflags
        exact ⟨some v, pop_line_src s htrav h1 hv, hflags.1, hflags.2⟩
    have hstep := step_not_traversing s htrav hpop hkeep
    rw [hnotadd, hnotrem] at hstep
    simp only [Bool.false_eq_true, if_false] at hstep
    obtain ⟨s', hre, hsegs, hsrc', hhe, hbe, hbl', hhl'⟩ :=
      ih { s with base_ln := s.base_ln + 1, head_ln := s.head_ln + 1 } seg rest
        hseg (by show seg.base_start - (s.base_ln + 1) = (d : Int); omega)
        (by show seg.head_start - (s.head_ln + 1) = (d : Int); omega)
        hlines
        (by
          cases hsrc with
          | inl h => exact Or.inl h
          | inr h =>
            refine Or.inr ⟨h.1, ?_, h.2.2⟩
            show (1 : Int) ≤ s.head_ln + 1
            omega)
    exact ⟨s', reaches_trans (reaches_step hf hstep) hre, hsegs, hsrc', hhe, hbe, hbl', hhl'⟩

theorem pop_line_traversing (s : TravState) {seg : DiffSegment}
    {rest : List DiffSegment} (hseg : s.segments = seg :: rest)
    (htrav : traversing_diff s = true) {x : String} {xs : List String}
    (hl : seg.lines = x :: xs) : pop_line s = some (some x) := by
  unfold pop_line
  rw [htrav, hseg]
  simp [hl]

theorem step_traversing (s : TravState) {seg : DiffSegment}
    {rest : List DiffSegment} (hseg : s.segments = seg :: rest)
    (htrav : traversing_diff s = true) {x : String} {xs : List String}
    (hl : seg.lines = x :: xs) :
    step s = some (⟨if _is_added (some x) then none else some s.base_ln,
                    if _is_removed (some x) then none else some s.head_ln,
                    some x, true⟩,
      { s with
        segments := if xs.isEmpty then rest else { seg with lines := xs } :: rest,
        base_ln := if _is_added (some x) then s.base_ln else s.base_ln + 1,
        head_ln := if _is_removed (some x) then s.head_ln else s.head_ln + 1 }) := by
  rw [step, pop_line_traversing s hseg htrav hl]
  have hadj : popAdjustSegments s = { seg with lines := xs } :: rest := by
    unfold popAdjustSegments
    rw [htrav, hseg]
    simp [hl]
  simp only [htrav, hadj]

theorem consume_reaches (bs bc hs hc : Int) :
    ∀ (L : List String) (s : TravState) (rest : List DiffSegment),
      s.segments = ⟨bs, bc, hs, hc, L⟩ :: rest →
      L ≠ [] →
      bs ≤ s.base_ln → hs ≤ s.head_ln →
      s.base_ln + (nonAddedCount L : Int) = bs + bc →
      s.head_ln + (nonRemovedCount L : Int) = hs + hc →
      ∃ s', Reaches s s' ∧ s'.segments = rest ∧ s'.src = s.src ∧
        s'.head_file_eof = s.head_file_eof ∧ s'.base_file_eof = s.base_file_eof ∧
        s'.base_ln = bs + bc ∧ s'.head_ln = hs + hc := by
  intro L
  induction L with
  | nil => intro s rest hseg hne; exact absurd rfl hne
  | cons x xs ih =>
    intro s rest hseg hne hble hhle hnaeq hnreq
    have hf : traverse_finished s = false := traverse_finished_cons hseg
    have hna_cons : nonAddedCount (x :: xs) =
        nonAddedCount xs + (if _is_added (some x) then 0 else 1) := by
      rw [nonAddedCount, nonAddedCount, List.countP_cons]
      cases hadd : _is_added (some x) <;> simp [hadd]
    have hnr_cons : nonRemovedCount (x :: xs) =
        nonRemovedCount xs + (if _is_removed (some x) then 0 else 1) := by
      rw [nonRemovedCount, nonRemovedCount, List.countP_cons]
      cases hrem : _is_removed (some x) <;> simp [hrem]
    have htrav : traversing_diff s = true := by
      rw [traversing_diff_cons hseg]
      simp only [Bool.or_eq_true, Bool.and_eq_true, decide_eq_true_eq]
      by_cases hzero : nonAddedCount (x :: xs) = 0
      · right
        have hadd : _is_added (some x) = true := by
          by_contra hcon
          rw [Bool.not_eq_true] at hcon
          rw [hcon] at hna_cons
          simp at hna_cons
          omega
        have hrem := added_not_removed hadd
        rw [hrem] at hnr_cons
        simp at hnr_cons
        have hc1 : hc ≠ 0 := by omega
        refine ⟨hhle, ?_⟩
        rw [orOne, if_neg hc1]
        omega
      · left
        have hbc : bc ≠ 0 := by omega
        refine ⟨hble, ?_⟩
        rw [orOne, if_neg hbc]
        omega
    have hstep := step_traversing s hseg htrav (rfl : (⟨bs, bc, hs, hc, x :: xs⟩ :
      DiffSegment).lines = x :: xs)
    have hb1 : (if _is_added (some x) then s.base_ln else s.base_ln + 1) +
        (nonAddedCount xs : Int) = bs + bc := by
      cases hadd : _is_added (some x) <;> rw [hadd] at hna_cons <;>
        simp at hna_cons <;> simp <;> omega
    have hh1 : (if _is_removed (some x) then s.head_ln else s.head_ln + 1) +
        (nonRemovedCount xs : Int) = hs + hc := by
      cases hrem : _is_removed (some x) <;> rw [hrem] at hnr_cons <;>
        simp at hnr_cons <;> simp <;> omega
    have hble1 : bs ≤ (if _is_added (some x) then s.base_ln else s.base_ln + 1) := by
      cases hadd : _is_added (some x) <;> simp <;> omega
    have hhle1 : hs ≤ (if _is_removed (some x) then s.head_ln else s.head_ln + 1) := by
      cases hrem : _is_removed (some x) <;> simp <;> omega
    cases hxs : xs with
    | nil =>
      refine ⟨_, reaches_step hf hstep, ?_, rfl, rfl, rfl, ?_, ?_⟩
      · show (if xs.isEmpty then rest else _) = rest
        rw [hxs]
        rfl
      · show (if _is_added (some x) then s.base_ln else s.base_ln + 1) = bs + bc
        rw [hxs] at hb1
        have h0 : nonAddedCount [] = 0 := rfl
        omega
      · show (if _is_removed (some x) then s.head_ln else s.head_ln + 1) = hs + hc
        rw [hxs] at hh1
        have h0 : nonRemovedCount [] = 0 := rfl
        omega
    | cons y ys =>
      have hxsne : xs.isEmpty = false := by rw [hxs]; rfl
      obtain ⟨s', hre, hsegs, hsrc', hhe, hbe, hb', hh'⟩ :=
        ih { s with
              segments := if xs.isEmpty then rest else
                ⟨bs, bc, hs, hc, xs⟩ :: rest,
              base_ln := if _is_added (some x) then s.base_ln else s.base_ln + 1,
              head_ln := if _is_removed (some x) then s.head_ln else s.head_ln + 1 }
          rest (by show (if xs.isEmpty then rest else _) = _; rw [hxsne]; rfl)
          (by rw [hxs]; exact List.cons_ne_nil y ys) hble1 hhle1 hb1 hh1
      exact ⟨s', reaches_trans (reaches_step hf hstep) hre, hsegs, hsrc', hhe, hbe, hb', hh'⟩

theorem le_headExitAfter :
    ∀ (segs : List DiffSegment) (b h : Int),
      chainWF b h segs = true → h ≤ headExitAfter h segs := by
  intro segs
  induction segs with
  | nil => intro b h _; exact le_refl h
  | cons seg rest ih =>
    intro b h hwf
    simp only [chainWF, Bool.and_eq_true, decide_eq_true_eq] at hwf
    obtain ⟨⟨⟨halign, hpos⟩, hwfseg⟩, hrest⟩ := hwf
    simp only [segWF, Bool.and_eq_true, decide_eq_true_eq] at hwfseg
    obtain ⟨⟨hlne, hna⟩, hnr⟩ := hwfseg
    have h2 : h ≤ seg.head_start + seg.head_count := by omega
    calc h ≤ seg.head_start + seg.head_count := h2
      _ ≤ headExitAfter (seg.head_start + seg.head_count) rest :=
        ih (seg.base_start + seg.base_count) (seg.head_start + seg.head_count) hrest

theorem chain_reaches :
    ∀ (segs : List DiffSegment) (s : TravState),
      s.segments = segs →
      chainWF s.base_ln s.head_ln segs = true →
      (s.src = [] ∨ (srcOK s.src = true ∧ 1 ≤ s.head_ln ∧
        headExitAfter s.head_ln segs ≤ (s.src.length : Int) + 1)) →
      ∃ s', Reaches s s' ∧ s'.segments = [] ∧ s'.src = s.src ∧
        s'.head_file_eof = s.head_file_eof ∧ s'.base_file_eof = s.base_file_eof ∧
        s'.head_ln = headExitAfter s.head_ln segs := by
  intro segs
  induction segs with
  | nil =>
    intro s hseg _ _
    exact ⟨s, reaches_refl s, hseg, rfl, rfl, rfl, rfl⟩
  | cons seg rest ih =>
    intro s hseg hwf hsrc
    simp only [chainWF, Bool.and_eq_true, decide_eq_true_eq] at hwf
    obtain ⟨⟨⟨halign, hpos⟩, hwfseg⟩, hrest⟩ := hwf
    have hwfseg' := hwfseg
    simp only [segWF, Bool.and_eq_true, decide_eq_true_eq] at hwfseg'
    obtain ⟨⟨hlne, hna⟩, hnr⟩ := hwfseg'
    rw [Bool.not_eq_true'] at hlne
    have hexit_ge : seg.head_start + seg.head_count ≤
        headExitAfter s.head_ln (seg :: rest) :=
      le_headExitAfter rest (seg.base_start + seg.base_count)
        (seg.head_start + seg.head_count) hrest
    obtain ⟨s1, hre1, hsegs1, hsrc1, hhe1, hbe1, hb1, hh1⟩ :=
      walk_reaches (seg.base_start - s.base_ln).toNat s seg rest hseg
        (by omega) (by omega) hlne
        (by
          cases hsrc with
          | inl h => exact Or.inl h
          | inr h =>
            obtain ⟨hok, h1, hbound⟩ := h
            exact Or.inr ⟨hok, h1, by omega⟩)
    have hseg1 : s1.segments =
        (⟨seg.base_start, seg.base_count, seg.head_start, seg.head_count,
          seg.lines⟩ : DiffSegment) :: rest :=
      hsegs1.trans hseg
    have hlinesne : seg.lines ≠ [] := by
      intro h
      rw [h] at hlne
      exact Bool.noConfusion hlne
    obtain ⟨s2, hre2, hsegs2, hsrc2, hhe2, hbe2, hb2, hh2⟩ :=
      consume_reaches seg.base_start seg.base_count seg.head_start seg.head_count
        seg.lines s1 rest hseg1 hlinesne (le_of_eq hb1.symm) (le_of_eq hh1.symm)
        (by rw [hb1]; omega) (by rw [hh1]; omega)
    obtain ⟨s3, hre3, hsegs3, hsrc3, hhe3, hbe3, hh3⟩ :=
      ih s2 hsegs2 (by rw [hb2, hh2]; exact hrest)
        (by
          rw [hsrc2, hsrc1]
          cases hsrc with
          | inl h => exact Or.inl h
          | inr h =>
            obtain ⟨hok, h1, hbound⟩ := h
            refine Or.inr ⟨hok, ?_, ?_⟩
            · rw [hh2]
              omega
            · rw [hh2]
              show headExitAfter (seg.head_start + seg.head_count) rest ≤ _
              have hexit_eq : headExitAfter s.head_ln (seg :: rest) =
                  headExitAfter (seg.head_start + seg.head_count) rest := rfl
              omega)
    refine ⟨s3, reaches_trans hre1 (reaches_trans hre2 hre3),
      hsegs3, ?_, ?_, ?_, ?_⟩
    · rw [hsrc3, hsrc2, hsrc1]
    · rw [hhe3, hhe2, hhe1]
    · rw [hbe3, hbe2, hbe1]
    · rw [hh3, hh2]
      rfl

/-- C4 (amended): the `.apply` loop terminates for every well-formed
input: the hunks form an aligned, ascending chain whose line lists are
non-empty and consistent with their headers (`chainWF`), and the
source lines, when a source is supplied, carry no spurious `+`/`-`
prefix and cover the head positions of the hunks.  Unrestricted —
sorted segments, finite lists — the loop can run forever (see the
counterexample). -/
theorem c4_traverse_apply_terminates (head_file_eof base_file_eof : Int)
    (segments : List DiffSegment) (src : List String)
    (hchain : chainWF (initBase segments) (initHead segments) segments = true)
    (hsrc : src = [] ∨ (srcOK src = true ∧ 1 ≤ initHead segments ∧
        headExitAfter (initHead segments) segments ≤ (src.length : Int) + 1)) :
    terminatesFrom (TravState.init head_file_eof base_file_eof segments src) := by
  have hseg0 : (TravState.init head_file_eof base_file_eof segments src).segments =
      segments := by cases segments <;> rfl
  have hb0 : (TravState.init head_file_eof base_file_eof segments src).base_ln =
      initBase segments := by cases segments <;> rfl
  have hh0 : (TravState.init head_file_eof base_file_eof segments src).head_ln =
      initHead segments := by cases segments <;> rfl
  have hsrc0 : (TravState.init head_file_eof base_file_eof segments src).src = src := by
    cases segments <;> rfl
  obtain ⟨s1, hre, hseg1, hsrc1, hhe1, hbe1, hh1⟩ :=
    chain_reaches segments (TravState.init head_file_eof base_file_eof segments src)
      hseg0 (by rw [hb0, hh0]; exact hchain)
      (by rw [hsrc0, hh0]; exact hsrc)
  refine terminatesFrom_of_reaches hre ?_
  cases hsv : src with
  | nil =>
    exact terminates_no_segments_no_src
      ((s1.head_file_eof - s1.head_ln).toNat + (s1.base_file_eof - s1.base_ln).toNat)
      s1 hseg1 (by rw [hsrc1, hsrc0, hsv]) le_rfl
  | cons a l =>
    obtain ⟨hok, h1, hbound⟩ := hsrc.resolve_left (by rw [hsv]; exact fun h => List.noConfusion h)
    have hmono : initHead segments ≤ headExitAfter (initHead segments) segments :=
      le_headExitAfter segments (initBase segments) (initHead segments) hchain
    refine terminates_no_segments_src (((s1.src.length : Int) + 1 - s1.head_ln).toNat)
      s1 hseg1 ?_ ?_ ?_ le_rfl
    · rw [hsrc1, hsrc0, hsv]
      exact fun h => List.noConfusion h
    · rw [hsrc1, hsrc0]
      exact hok
    · rw [hh1, hh0]
      omega

/-- C4 witness: a well-formed single-hunk diff with no source
terminates. -/
theorem c4_witness :
    terminatesFrom (TravState.init 0 0 [⟨1, 1, 1, 1, [" a"]⟩] []) :=
  c4_traverse_apply_terminates 0 0 [⟨1, 1, 1, 1, [" a"]⟩] [] (by decide) (Or.inl rfl)

theorem c4Bad_inv_applyN :
    ∀ (n : Nat) (s : TravState),
      s.segments = [⟨1, 1, 1, 1, [" b"]⟩] → s.src = [] →
      2 ≤ s.base_ln → 2 ≤ s.head_ln →
      ∀ t, applyN n s = some t → t.segments = [⟨1, 1, 1, 1, [" b"]⟩] := by
  intro n
  induction n with
  | zero =>
    intro s h1 h2 h3 h4 t ht
    rw [applyN_zero] at ht
    obtain rfl := Option.some.inj ht
    exact h1
  | succ n ih =>
    intro s h1 h2 h3 h4 t ht
    have hf : traverse_finished s = false := traverse_finished_cons h1
    have htrav : traversing_diff s = false := by
      rw [traversing_diff_cons h1]
      simp [orOne]
      omega
    have hstep := step_not_traversing s htrav (pop_line_empty_src s htrav h2)
      (fun sg rs h => by
        rw [h1] at h
        cases h
        rfl)
    simp only [_is_added, _is_removed, Bool.false_eq_true, if_false] at hstep
    rw [applyN_succ_step n s _ _ hf hstep] at ht
    exact ih { s with base_ln := s.base_ln + 1, head_ln := s.head_ln + 1 } h1 h2
      (by show (2 : Int) ≤ s.base_ln + 1; omega)
      (by show (2 : Int) ≤ s.head_ln + 1; omega) t ht

/-- C4 counterexample: from `c4BadState` — finite, pre-sorted segments
(a single one), finite source and EOF offsets — the `.apply` loop
never reaches `traverse_finished`. -/
theorem c4_counterexample : ¬ terminatesFrom c4BadState := by
  rintro ⟨n, t, hn, hft⟩
  cases n with
  | zero =>
    rw [applyN_zero] at hn
    obtain rfl := Option.some.inj hn
    exact absurd hft (by decide)
  | succ n =>
    have hf : traverse_finished c4BadState = false := by decide
    have hstep : step c4BadState =
        some (⟨some 1, some 1, some " a", true⟩,
          ⟨0, 0, [⟨1, 1, 1, 1, [" b"]⟩], [], 2, 2⟩) := by decide
    rw [applyN_succ_step n c4BadState _ _ hf hstep] at hn
    have hinv := c4Bad_inv_applyN n ⟨0, 0, [⟨1, 1, 1, 1, [" b"]⟩], [], 2, 2⟩
      rfl rfl (by norm_num) (by norm_num) t hn
    have hfin : traverse_finished t = false := traverse_finished_cons hinv
    rw [hfin] at hft
    exact Bool.noConfusion hft
